import Mathlib

/-!
Shallow embedding of the esp-rf-ook receiver (`src/main.rs`): the timing
window constants, the polling-loop frame state machine, and the Nexus-TH
bit/field decoder.  Durations (`u64` counts of microseconds) are modelled
as `ℕ`; `u32` and `u8` arithmetic is modelled with explicit `% 2 ^ 32`
and `% 2 ^ 8`; Rust's truncating signed division is `Int.tdiv`.  Slice
indexing `&samples[start..start + size]`, which panics when out of
bounds, is modelled by returning `none` for the panic.  The decoder's
timestamping and textual formatting are side effects elided here: the
decoded fields are returned in a `Reading` structure instead.
-/

namespace EspRfOok

def PREAMBLE_MIN : ℕ := 2000

def PREAMBLE_MAX : ℕ := 8000

def SIGNAL_END_MIN : ℕ := 3000

def SIGNAL_END_MAX : ℕ := 8000

def PULSE_MIN : ℕ := 300

def PULSE_MAX : ℕ := 600

def PAYLOAD_LEN : ℕ := 36

def MIN_HIGH : ℕ := 1650

def MAX_HIGH : ℕ := 2150

def MIN_LOW : ℕ := 800

def MAX_LOW : ℕ := 1100

/-- The four states of the polling-loop automaton (`enum WaitingFor`). -/
inductive WaitingFor
  | PulseIdle
  | Preamble
  | Pulse
  | Data
deriving DecidableEq

/-- GPIO pin level (`esp_idf_hal::gpio::Level`). -/
inductive Level
  | Low
  | High
deriving DecidableEq

/-- `enum DecodeError`; the payloads (`usize`, `u64`, `u8`) are `ℕ`. -/
inductive DecodeError
  | WrongPayloadLen (len : ℕ)
  | SampleOutOfRange (sample : ℕ)
  | WrongChannel (ch : ℕ)
deriving DecidableEq

/-- `fn in_range(count, min, max) -> bool { count >= min && count <= max }`. -/
def in_range (count mn mx : ℕ) : Bool :=
  decide (mn ≤ count ∧ count ≤ mx)

/-- Rust `as u8` cast from a wider unsigned integer. -/
def as_u8 (v : ℕ) : ℕ := v % 2 ^ 8

/-- Rust `as i32` cast from `u32` (two's-complement reinterpretation). -/
def u32_as_i32 (v : ℕ) : ℤ :=
  if v < 2 ^ 31 then (v : ℤ) else (v : ℤ) - 2 ^ 32

/-- A sample is a data bit: in the logical-1 window or the logical-0 window
(the two classifications accepted by `decode_range`). -/
def validSample (x : ℕ) : Bool :=
  in_range x MIN_HIGH MAX_HIGH || in_range x MIN_LOW MAX_LOW

/-- The loop body of `decode_range` (src/main.rs:231-243): fold over the
slice accumulating the `u32` `value`, shifting in a 1-bit for a logical-1
window sample and a 0-bit for a logical-0 window sample, failing with
`SampleOutOfRange` on anything else. -/
def decodeRangeGo (slice : List ℕ) (value : ℕ) : Except DecodeError ℕ :=
  match slice with
  | [] => Except.ok value
  | sample :: rest =>
    if in_range sample MIN_HIGH MAX_HIGH then
      decodeRangeGo rest ((2 * value + 1) % 2 ^ 32)
    else if in_range sample MIN_LOW MAX_LOW then
      decodeRangeGo rest ((2 * value) % 2 ^ 32)
    else
      Except.error (DecodeError.SampleOutOfRange sample)

/-- The sub-list `samples[start..start + size]`. -/
def fieldSlice (samples : List ℕ) (start size : ℕ) : List ℕ :=
  (samples.drop start).take size

/-- `fn decode_range(samples, start, size)` (src/main.rs:230-245).  Rust
slice indexing `&samples[start..start + size]` panics when
`start + size > samples.len()`; the panic is modelled as `none`. -/
def decode_range (samples : List ℕ) (start size : ℕ) :
    Option (Except DecodeError ℕ) :=
  if start + size ≤ samples.length then
    some (decodeRangeGo (fieldSlice samples start size) 0)
  else
    none

/-- Temperature correction from `decode` (src/main.rs:253-257):
`temp_10x` after the negative-temperature fixup `-(4096 - temp_10x)`. -/
def tempCorrect (raw : ℕ) : ℤ :=
  if u32_as_i32 raw > 2048 then -(4096 - u32_as_i32 raw) else u32_as_i32 raw

/-- Temperature interpretation from `decode` (src/main.rs:253-259):
integer part `temp_10x / 10` (Rust division truncates toward zero) and
decimal digit `temp_10x.abs() % 10`. -/
def tempParts (raw : ℕ) : ℤ × ℕ :=
  (Int.tdiv (tempCorrect raw) 10, (tempCorrect raw).natAbs % 10)

/-- Humidity interpretation from `decode` (src/main.rs:261-265): the raw
value as `i32`, clamped to 100 when above 100. -/
def humClamp (raw : ℕ) : ℤ :=
  if u32_as_i32 raw > 100 then 100 else u32_as_i32 raw

/-- The fields of a successful decode, as computed and printed/published
by `decode` (timestamp and textual formatting elided). -/
structure Reading where
  id : ℕ
  channel : ℕ
  battery_ok : ℕ
  temp_int : ℤ
  temp_decimal : ℕ
  humidity : ℤ
deriving DecidableEq

/-- `fn decode(samples, channel_to_use)` (src/main.rs:247-288): length
check, the five `decode_range` extractions in source order (temperature,
humidity, battery, channel, id) with `?`-propagation of their errors,
field interpretation, and the channel filter.  `none` models a panic in
any `decode_range` call. -/
def decode (samples : List ℕ) (channel_to_use : ℕ) :
    Option (Except DecodeError Reading) :=
  if samples.length ≠ PAYLOAD_LEN then
    some (Except.error (DecodeError.WrongPayloadLen samples.length))
  else
    match decode_range samples 12 12 with
    | none => none
    | some (Except.error e) => some (Except.error e)
    | some (Except.ok tempRaw) =>
      match decode_range samples 28 8 with
      | none => none
      | some (Except.error e) => some (Except.error e)
      | some (Except.ok humRaw) =>
        match decode_range samples 8 1 with
        | none => none
        | some (Except.error e) => some (Except.error e)
        | some (Except.ok batRaw) =>
          match decode_range samples 10 2 with
          | none => none
          | some (Except.error e) => some (Except.error e)
          | some (Except.ok chanRaw) =>
            match decode_range samples 0 8 with
            | none => none
            | some (Except.error e) => some (Except.error e)
            | some (Except.ok idRaw) =>
              if as_u8 (chanRaw + 1) ≠ channel_to_use then
                some (Except.error
                  (DecodeError.WrongChannel (as_u8 (chanRaw + 1))))
              else
                some (Except.ok
                  { id := as_u8 idRaw
                    channel := as_u8 (chanRaw + 1)
                    battery_ok := as_u8 batRaw
                    temp_int := (tempParts tempRaw).1
                    temp_decimal := (tempParts tempRaw).2
                    humidity := humClamp humRaw })

/-- The loop-local mutable state of `main`: the automaton state and the
candidate payload `samples`. -/
structure LoopState where
  state : WaitingFor
  samples : List ℕ
deriving DecidableEq

/-- One iteration of the `state = match state { ... }` block of `main`
(src/main.rs:160-217) for an observed edge: `pin_old_level` is the level
before the edge and `count` the measured duration.  The second component
records the payload handed to `decode`, if any (`none` when the decoder
is not invoked); the decode result does not influence the automaton, so
it is not part of the state. -/
def stepSM (st : LoopState) (pin_old_level : Level) (count : ℕ) :
    LoopState × Option (List ℕ) :=
  match st.state with
  | WaitingFor.PulseIdle =>
    if pin_old_level = Level.High then
      if in_range count PULSE_MIN PULSE_MAX then
        (⟨WaitingFor.Preamble, st.samples⟩, none)
      else
        (⟨WaitingFor.PulseIdle, st.samples⟩, none)
    else
      (⟨WaitingFor.PulseIdle, st.samples⟩, none)
  | WaitingFor.Preamble =>
    if in_range count PREAMBLE_MIN PREAMBLE_MAX then
      (⟨WaitingFor.Pulse, st.samples⟩, none)
    else
      (⟨WaitingFor.PulseIdle, st.samples⟩, none)
  | WaitingFor.Pulse =>
    if in_range count PULSE_MIN PULSE_MAX then
      (⟨WaitingFor.Data, st.samples⟩, none)
    else
      (⟨WaitingFor.PulseIdle, []⟩, none)
  | WaitingFor.Data =>
    if in_range count SIGNAL_END_MIN SIGNAL_END_MAX then
      if st.samples ≠ [] then
        (⟨WaitingFor.PulseIdle, []⟩, some st.samples)
      else
        (⟨WaitingFor.PulseIdle, st.samples⟩, none)
    else if in_range count MIN_LOW MAX_HIGH then
      (⟨WaitingFor.Pulse, st.samples ++ [count]⟩, none)
    else
      (⟨WaitingFor.PulseIdle, []⟩, none)

/-- Run the automaton over a list of `(pin_old_level, count)` edge events. -/
def runSM (st : LoopState) : List (Level × ℕ) → LoopState
  | [] => st
  | e :: rest => runSM (stepSM st e.1 e.2).1 rest

/-- The payloads handed to `decode` while running over a list of edge
events. -/
def decodesDuring (st : LoopState) : List (Level × ℕ) → List (List ℕ)
  | [] => []
  | e :: rest =>
    match stepSM st e.1 e.2 with
    | (st2, none) => decodesDuring st2 rest
    | (st2, some p) => p :: decodesDuring st2 rest

deriving instance DecidableEq for Except

/-- The bit positions of a 36-sample payload that `decode` actually
examines: id `0..8`, battery `8..9`, channel `10..12`, temperature
`12..24`, humidity `28..36` (positions 9 and 24-27 are never read). -/
def readPosition (i : ℕ) : Prop :=
  i < 9 ∨ (10 ≤ i ∧ i < 24) ∨ (28 ≤ i ∧ i < 36)

/-- Invariant of the polling loop: in the `PulseIdle` and `Preamble`
states the candidate payload is empty. -/
def smInv (st : LoopState) : Prop :=
  (st.state = WaitingFor.PulseIdle ∨ st.state = WaitingFor.Preamble) →
    st.samples = []

/-- Following the spec's words, the 12-bit encoding of a signed
tenths-of-a-degree value: the value as-is when nonnegative, else
`4096 + value` (the spec's "value as-is if ≤2048, else `4096 + value`",
read as its own example "raw 4076 → corrected −20" forces: the
`4096 + value` branch is the one taken by negative values).  There is no
encoder in the source; this definition exists only to state the
round-trip property. -/
def encodeTempSpec (v : ℤ) : ℕ := (if 0 ≤ v then v else 4096 + v).toNat

/-- A 36-sample payload of all logical-0 gaps: every field decodes to 0,
so the reported channel is 1. -/
def goodPayload : List ℕ :=
  [900, 900, 900, 900, 900, 900, 900, 900, 900, 900, 900, 900,
   900, 900, 900, 900, 900, 900, 900, 900, 900, 900, 900, 900,
   900, 900, 900, 900, 900, 900, 900, 900, 900, 900, 900, 900]

/-- A 36-sample payload whose position 9 holds the duration 5000, which
lies outside both bit windows; all other positions hold 900. -/
def badPayload : List ℕ :=
  [900, 900, 900, 900, 900, 900, 900, 900, 900, 5000, 900, 900,
   900, 900, 900, 900, 900, 900, 900, 900, 900, 900, 900, 900,
   900, 900, 900, 900, 900, 900, 900, 900, 900, 900, 900, 900]

/-- A 36-sample payload whose position 12 holds the duration 5000, which
lies outside both bit windows; all other positions hold 900. -/
def cexPayload : List ℕ :=
  [900, 900, 900, 900, 900, 900, 900, 900, 900, 900, 900, 900,
   5000, 900, 900, 900, 900, 900, 900, 900, 900, 900, 900, 900,
   900, 900, 900, 900, 900, 900, 900, 900, 900, 900, 900, 900]

/-! ## Helper lemmas about bit extraction -/

theorem validSample_false {x : ℕ} (h : validSample x = false) :
    in_range x MIN_HIGH MAX_HIGH = false ∧ in_range x MIN_LOW MAX_LOW = false := by
  simpa [validSample] using h

theorem decodeRangeGo_ok (l : List ℕ) :
    ∀ a : ℕ, (∀ x ∈ l, validSample x = true) →
      ∃ v, decodeRangeGo l a = Except.ok v := by
  induction l with
  | nil => exact fun a _ => ⟨a, rfl⟩
  | cons x rest ih =>
    intro a hv
    have hx := hv x (List.mem_cons_self x rest)
    have hrest := fun y hy => hv y (List.mem_cons_of_mem x hy)
    by_cases hh : in_range x MIN_HIGH MAX_HIGH = true
    · simpa [decodeRangeGo, hh] using ih _ hrest
    · have hl : in_range x MIN_LOW MAX_LOW = true := by
        simp [validSample, hh] at hx; exact hx
      simpa [decodeRangeGo, hh, hl] using ih _ hrest

theorem decodeRangeGo_err (l1 : List ℕ) (x : ℕ) (l2 : List ℕ) :
    ∀ a : ℕ, (∀ y ∈ l1, validSample y = true) → validSample x = false →
      decodeRangeGo (l1 ++ x :: l2) a =
        Except.error (DecodeError.SampleOutOfRange x) := by
  induction l1 with
  | nil =>
    intro a _ hx
    obtain ⟨h1, h2⟩ := validSample_false hx
    simp [decodeRangeGo, h1, h2]
  | cons y rest ih =>
    intro a hv hx
    have hy := hv y (List.mem_cons_self y rest)
    have hrest := fun z hz => hv z (List.mem_cons_of_mem y hz)
    by_cases hh : in_range y MIN_HIGH MAX_HIGH = true
    · simpa [decodeRangeGo, hh] using ih _ hrest hx
    · have hl : in_range y MIN_LOW MAX_LOW = true := by
        simp [validSample, hh] at hy; exact hy
      simpa [decodeRangeGo, hh, hl] using ih _ hrest hx

theorem decodeRangeGo_bound (l : List ℕ) :
    ∀ a v : ℕ, (a + 1) * 2 ^ l.length ≤ 2 ^ 32 →
      decodeRangeGo l a = Except.ok v → v < (a + 1) * 2 ^ l.length := by
  induction l with
  | nil =>
    intro a v _ h
    simp only [decodeRangeGo, Except.ok.injEq] at h
    simp only [List.length_nil, pow_zero, mul_one]
    omega
  | cons x rest ih =>
    intro a v hle h
    rw [List.length_cons, pow_succ] at hle ⊢
    have h1 : 1 ≤ 2 ^ rest.length := Nat.one_le_two_pow
    have h2 : (a + 1) * 2 ≤ 2 ^ 32 :=
      le_trans (mul_le_mul_left' (by omega) (a + 1)) hle
    by_cases hh : in_range x MIN_HIGH MAX_HIGH = true
    · simp only [decodeRangeGo, hh, if_true] at h
      have key : (2 * a + 1 + 1) * 2 ^ rest.length ≤ 2 ^ 32 := by
        calc (2 * a + 1 + 1) * 2 ^ rest.length
            = (a + 1) * (2 ^ rest.length * 2) := by ring
          _ ≤ 2 ^ 32 := hle
      have hsmall : 2 * a + 1 < 2 ^ 32 := by omega
      rw [Nat.mod_eq_of_lt hsmall] at h
      calc v < (2 * a + 1 + 1) * 2 ^ rest.length := ih _ _ key h
        _ = (a + 1) * (2 ^ rest.length * 2) := by ring
    · by_cases hl : in_range x MIN_LOW MAX_LOW = true
      · simp only [decodeRangeGo, hh, hl, if_true, if_false,
          Bool.false_eq_true] at h
        have key : (2 * a + 1) * 2 ^ rest.length ≤ 2 ^ 32 := by
          calc (2 * a + 1) * 2 ^ rest.length
              ≤ (2 * a + 2) * 2 ^ rest.length := mul_le_mul_right' (by omega) _
            _ = (a + 1) * (2 ^ rest.length * 2) := by ring
            _ ≤ 2 ^ 32 := hle
        have hsmall : 2 * a < 2 ^ 32 := by omega
        rw [Nat.mod_eq_of_lt hsmall] at h
        calc v < (2 * a + 1) * 2 ^ rest.length := ih _ _ key h
          _ ≤ (2 * a + 2) * 2 ^ rest.length := mul_le_mul_right' (by omega) _
          _ = (a + 1) * (2 ^ rest.length * 2) := by ring
      · simp [decodeRangeGo, hh, hl] at h

theorem fieldSlice_length (s : List ℕ) (start size : ℕ)
    (hb : start + size ≤ s.length) :
    (fieldSlice s start size).length = size := by
  simp only [fieldSlice, List.length_take, List.length_drop]
  omega

theorem fieldSlice_getD (s : List ℕ) (start size k : ℕ) (hk : k < size) :
    (fieldSlice s start size).getD k 0 = s.getD (start + k) 0 := by
  simp [fieldSlice, List.getD_eq_getElem?_getD, List.getElem?_take,
    List.getElem?_drop, hk]

theorem fieldSlice_forall_mem (s : List ℕ) (start size : ℕ)
    (hb : start + size ≤ s.length)
    (hv : ∀ j, start ≤ j → j < start + size → validSample (s.getD j 0) = true) :
    ∀ x ∈ fieldSlice s start size, validSample x = true := by
  intro x hx
  rw [List.mem_iff_getElem] at hx
  obtain ⟨k, hk, hke⟩ := hx
  have hlen : (fieldSlice s start size).length = size :=
    fieldSlice_length s start size hb
  have hk2 : k < size := by omega
  have hgd : (fieldSlice s start size).getD k 0 = x := by
    rw [List.getD_eq_getElem _ 0 hk, hke]
  rw [fieldSlice_getD s start size k hk2] at hgd
  rw [← hgd]
  exact hv (start + k) (by omega) (by omega)

theorem decode_range_ok (s : List ℕ) (start size : ℕ)
    (hb : start + size ≤ s.length)
    (hv : ∀ j, start ≤ j → j < start + size → validSample (s.getD j 0) = true) :
    ∃ v, decode_range s start size = some (Except.ok v) := by
  obtain ⟨v, hv2⟩ :=
    decodeRangeGo_ok (fieldSlice s start size) 0
      (fieldSlice_forall_mem s start size hb hv)
  refine ⟨v, ?_⟩
  rw [decode_range, if_pos hb, hv2]

theorem decode_range_err (s : List ℕ) (start size i : ℕ)
    (hb : start + size ≤ s.length) (h1 : start ≤ i) (h2 : i < start + size)
    (hbad : validSample (s.getD i 0) = false)
    (hpre : ∀ j, start ≤ j → j < i → validSample (s.getD j 0) = true) :
    decode_range s start size =
      some (Except.error (DecodeError.SampleOutOfRange (s.getD i 0))) := by
  have hlen : (fieldSlice s start size).length = size :=
    fieldSlice_length s start size hb
  have hkL : i - start < (fieldSlice s start size).length := by omega
  have h4 : (fieldSlice s start size).getD (i - start) 0 = s.getD i 0 := by
    rw [fieldSlice_getD s start size (i - start) (by omega)]
    congr 1
    omega
  have h5 : (fieldSlice s start size).getD (i - start) 0 =
      (fieldSlice s start size).get ⟨i - start, hkL⟩ := by
    rw [List.getD_eq_getElem _ 0 hkL, List.get_eq_getElem]
  have hsplit : fieldSlice s start size =
      (fieldSlice s start size).take (i - start) ++
        s.getD i 0 :: (fieldSlice s start size).drop (i - start + 1) := by
    rw [← h4, h5, List.get_eq_getElem, ← List.drop_eq_getElem_cons hkL,
      List.take_append_drop]
  have htake : (fieldSlice s start size).take (i - start) =
      fieldSlice s start (i - start) := by
    rw [fieldSlice, fieldSlice, List.take_take]
    congr 1
    omega
  have hvalid : ∀ y ∈ (fieldSlice s start size).take (i - start),
      validSample y = true := by
    rw [htake]
    exact fieldSlice_forall_mem s start (i - start) (by omega)
      (fun j hj1 hj2 => hpre j hj1 (by omega))
  have key := decodeRangeGo_err ((fieldSlice s start size).take (i - start))
    (s.getD i 0) ((fieldSlice s start size).drop (i - start + 1)) 0 hvalid hbad
  rw [decode_range, if_pos hb, hsplit, key]

/-! ## Helper lemmas about `decode` -/

theorem decode_eq_of_ranges (s : List ℕ) (ch : ℕ) (h : s.length = 36)
    (tv hv2 bv cv iv : ℕ)
    (ht : decode_range s 12 12 = some (Except.ok tv))
    (hh : decode_range s 28 8 = some (Except.ok hv2))
    (hb : decode_range s 8 1 = some (Except.ok bv))
    (hc : decode_range s 10 2 = some (Except.ok cv))
    (hi : decode_range s 0 8 = some (Except.ok iv)) :
    decode s ch =
      if as_u8 (cv + 1) ≠ ch then
        some (Except.error (DecodeError.WrongChannel (as_u8 (cv + 1))))
      else
        some (Except.ok ⟨as_u8 iv, as_u8 (cv + 1), as_u8 bv,
          (tempParts tv).1, (tempParts tv).2, humClamp hv2⟩) := by
  have hlen : ¬ (s.length ≠ PAYLOAD_LEN) := by simp [PAYLOAD_LEN, h]
  unfold decode
  rw [if_neg hlen]
  simp only [ht, hh, hb, hc, hi]

theorem decode_err_temp (s : List ℕ) (ch : ℕ) (h : s.length = 36)
    (e : DecodeError)
    (ht : decode_range s 12 12 = some (Except.error e)) :
    decode s ch = some (Except.error e) := by
  have hlen : ¬ (s.length ≠ PAYLOAD_LEN) := by simp [PAYLOAD_LEN, h]
  unfold decode
  rw [if_neg hlen]
  simp only [ht]

theorem decode_err_hum (s : List ℕ) (ch : ℕ) (h : s.length = 36)
    (tv : ℕ) (e : DecodeError)
    (ht : decode_range s 12 12 = some (Except.ok tv))
    (hh : decode_range s 28 8 = some (Except.error e)) :
    decode s ch = some (Except.error e) := by
  have hlen : ¬ (s.length ≠ PAYLOAD_LEN) := by simp [PAYLOAD_LEN, h]
  unfold decode
  rw [if_neg hlen]
  simp only [ht, hh]

theorem decode_err_bat (s : List ℕ) (ch : ℕ) (h : s.length = 36)
    (tv hv2 : ℕ) (e : DecodeError)
    (ht : decode_range s 12 12 = some (Except.ok tv))
    (hh : decode_range s 28 8 = some (Except.ok hv2))
    (hb : decode_range s 8 1 = some (Except.error e)) :
    decode s ch = some (Except.error e) := by
  have hlen : ¬ (s.length ≠ PAYLOAD_LEN) := by simp [PAYLOAD_LEN, h]
  unfold decode
  rw [if_neg hlen]
  simp only [ht, hh, hb]

theorem decode_err_chan (s : List ℕ) (ch : ℕ) (h : s.length = 36)
    (tv hv2 bv : ℕ) (e : DecodeError)
    (ht : decode_range s 12 12 = some (Except.ok tv))
    (hh : decode_range s 28 8 = some (Except.ok hv2))
    (hb : decode_range s 8 1 = some (Except.ok bv))
    (hc : decode_range s 10 2 = some (Except.error e)) :
    decode s ch = some (Except.error e) := by
  have hlen : ¬ (s.length ≠ PAYLOAD_LEN) := by simp [PAYLOAD_LEN, h]
  unfold decode
  rw [if_neg hlen]
  simp only [ht, hh, hb, hc]

theorem decode_err_id (s : List ℕ) (ch : ℕ) (h : s.length = 36)
    (tv hv2 bv cv : ℕ) (e : DecodeError)
    (ht : decode_range s 12 12 = some (Except.ok tv))
    (hh : decode_range s 28 8 = some (Except.ok hv2))
    (hb : decode_range s 8 1 = some (Except.ok bv))
    (hc : decode_range s 10 2 = some (Except.ok cv))
    (hi : decode_range s 0 8 = some (Except.error e)) :
    decode s ch = some (Except.error e) := by
  have hlen : ¬ (s.length ≠ PAYLOAD_LEN) := by simp [PAYLOAD_LEN, h]
  unfold decode
  rw [if_neg hlen]
  simp only [ht, hh, hb, hc, hi]

/-! ## Claim theorems -/

/-- C5: for every duration sequence whose length is not 36 passed to
`decode`, the result is the "wrong payload length" error carrying the
actual length (the length check fails before any field extraction). -/
theorem wrong_payload_len_error (s : List ℕ) (ch : ℕ) (h : s.length ≠ 36) :
    decode s ch = some (Except.error (DecodeError.WrongPayloadLen s.length)) := by
  unfold decode
  rw [if_pos (by simpa [PAYLOAD_LEN] using h)]

theorem wrong_payload_len_error_witness :
    ([(900 : ℕ)].length ≠ 36) ∧
      decode [900] 5 = some (Except.error (DecodeError.WrongPayloadLen 1)) :=
  ⟨by decide, wrong_payload_len_error [900] 5 (by decide)⟩

/-- C8: the humidity interpretation of `decode` maps any raw 8-bit value
greater than 100 to exactly 100 and leaves every raw value at most 100
unchanged. -/
theorem humidity_clamping (raw : ℕ) (h : raw < 256) :
    (100 < raw → humClamp raw = 100) ∧ (raw ≤ 100 → humClamp raw = raw) := by
  have hc : u32_as_i32 raw = (raw : ℤ) := by
    rw [u32_as_i32, if_pos (by omega)]
  constructor
  · intro h2
    rw [humClamp, hc, if_pos (by exact_mod_cast h2)]
  · intro h2
    rw [humClamp, hc, if_neg (by omega)]

theorem humidity_clamping_witness :
    humClamp 150 = 100 ∧ humClamp 47 = 47 :=
  ⟨(humidity_clamping 150 (by decide)).1 (by decide),
   (humidity_clamping 47 (by decide)).2 (by decide)⟩

/-- C3: temperature round-trip.  Encoding a signed tenths-of-a-degree
value representable in the 12-bit field (between -2047 and 2048) and
decoding it with the source's temperature interpretation reproduces the
original integer part (truncating division by 10) and decimal digit
(absolute value modulo 10), including the sign handling for negative
values. -/
theorem temp_roundtrip (v : ℤ) (h1 : -2047 ≤ v) (h2 : v ≤ 2048) :
    tempParts (encodeTempSpec v) = (Int.tdiv v 10, v.natAbs % 10) := by
  have hcorr : tempCorrect (encodeTempSpec v) = v := by
    rcases le_or_lt 0 v with hv | hv
    · have he : encodeTempSpec v = v.toNat := by
        rw [encodeTempSpec, if_pos hv]
      have hc : ((v.toNat : ℕ) : ℤ) = v := Int.toNat_of_nonneg hv
      have hu : u32_as_i32 (encodeTempSpec v) = v := by
        rw [he]
        unfold u32_as_i32
        rw [if_pos (by omega), hc]
      unfold tempCorrect
      rw [hu, if_neg (by omega)]
    · have he : encodeTempSpec v = (4096 + v).toNat := by
        rw [encodeTempSpec, if_neg (by omega)]
      have hc : (((4096 + v).toNat : ℕ) : ℤ) = 4096 + v :=
        Int.toNat_of_nonneg (by omega)
      have hu : u32_as_i32 (encodeTempSpec v) = 4096 + v := by
        rw [he]
        unfold u32_as_i32
        rw [if_pos (by omega), hc]
      unfold tempCorrect
      rw [hu, if_pos (by omega)]
      omega
  unfold tempParts
  rw [hcorr]

theorem temp_roundtrip_witness :
    encodeTempSpec (-20) = 4076 ∧ tempParts 4076 = (-2, 0) ∧
      ((-2047 : ℤ) ≤ -20) ∧ ((-20 : ℤ) ≤ 2048) := by
  have henc : encodeTempSpec (-20) = 4076 := by decide
  refine ⟨henc, ?_, by decide, by decide⟩
  have h := temp_roundtrip (-20) (by decide) (by decide)
  rw [henc] at h
  rw [h]
  decide

/-- C2: in the `Data` state the automaton applies exactly three mutually
exclusive outcomes in priority order: an end-of-frame duration
(`[3000,8000]`) terminates the frame, handing a non-empty candidate
payload to the decoder (an empty one is not handed over) and clearing it
regardless of decode outcome, returning to `PulseIdle`; otherwise a
duration in the combined acceptance range `[800,2150]` is appended and
the state advances to `Pulse`; otherwise the candidate payload is
cleared and the state returns to `PulseIdle`. -/
theorem data_state_trichotomy (s : List ℕ) (lvl : Level) (count : ℕ) :
    (in_range count SIGNAL_END_MIN SIGNAL_END_MAX = true →
      stepSM ⟨WaitingFor.Data, s⟩ lvl count =
        (⟨WaitingFor.PulseIdle, []⟩, if s = [] then none else some s)) ∧
    (in_range count SIGNAL_END_MIN SIGNAL_END_MAX = false →
      in_range count MIN_LOW MAX_HIGH = true →
      stepSM ⟨WaitingFor.Data, s⟩ lvl count =
        (⟨WaitingFor.Pulse, s ++ [count]⟩, none)) ∧
    (in_range count SIGNAL_END_MIN SIGNAL_END_MAX = false →
      in_range count MIN_LOW MAX_HIGH = false →
      stepSM ⟨WaitingFor.Data, s⟩ lvl count =
        (⟨WaitingFor.PulseIdle, []⟩, none)) := by
  refine ⟨?_, ?_, ?_⟩
  · intro h1
    by_cases hs : s = []
    · subst hs
      simp [stepSM, h1]
    · simp [stepSM, h1, hs]
  · intro h1 h2
    simp [stepSM, h1, h2]
  · intro h1 h2
    simp [stepSM, h1, h2]

theorem data_state_trichotomy_witness :
    stepSM ⟨WaitingFor.Data, [900]⟩ Level.High 5000 =
        (⟨WaitingFor.PulseIdle, []⟩, some [900]) ∧
      stepSM ⟨WaitingFor.Data, []⟩ Level.High 900 =
        (⟨WaitingFor.Pulse, [900]⟩, none) ∧
      stepSM ⟨WaitingFor.Data, [900]⟩ Level.High 100 =
        (⟨WaitingFor.PulseIdle, []⟩, none) := by
  refine ⟨?_, ?_, ?_⟩
  · have h := (data_state_trichotomy [900] Level.High 5000).1 (by decide)
    simpa using h
  · exact (data_state_trichotomy [] Level.High 900).2.1 (by decide) (by decide)
  · exact (data_state_trichotomy [900] Level.High 100).2.2 (by decide) (by decide)

/-- C7: over any sequence of duration events none of which lies in the
sync-pulse window `[300,600]` or the preamble window `[2000,8000]`, the
automaton started in `PulseIdle` stays in `PulseIdle` (with its samples
untouched) and never hands a payload to the decoder. -/
theorem noise_keeps_pulse_idle (events : List (Level × ℕ)) (s0 : List ℕ)
    (h : ∀ e ∈ events, in_range e.2 PULSE_MIN PULSE_MAX = false ∧
      in_range e.2 PREAMBLE_MIN PREAMBLE_MAX = false) :
    runSM ⟨WaitingFor.PulseIdle, s0⟩ events = ⟨WaitingFor.PulseIdle, s0⟩ ∧
      decodesDuring ⟨WaitingFor.PulseIdle, s0⟩ events = [] := by
  revert h
  induction events with
  | nil => exact fun _ => ⟨rfl, rfl⟩
  | cons e rest ih =>
    intro h
    obtain ⟨h1, _h2⟩ := h e (List.mem_cons_self e rest)
    have h1c : in_range e.2 PULSE_MIN PULSE_MAX = false := h1
    have hstep : stepSM ⟨WaitingFor.PulseIdle, s0⟩ e.1 e.2 =
        (⟨WaitingFor.PulseIdle, s0⟩, none) := by
      rcases e with ⟨lvl, c⟩
      have h1d : in_range c PULSE_MIN PULSE_MAX = false := h1c
      cases lvl <;> simp [stepSM, h1d]
    have ih2 := ih (fun x hx => h x (List.mem_cons_of_mem e hx))
    constructor
    · simp only [runSM]
      rw [hstep]
      exact ih2.1
    · simp only [decodesDuring]
      rw [hstep]
      exact ih2.2

theorem noise_keeps_pulse_idle_witness :
    runSM ⟨WaitingFor.PulseIdle, []⟩ [(Level.High, 700), (Level.Low, 900)] =
        ⟨WaitingFor.PulseIdle, []⟩ ∧
      decodesDuring ⟨WaitingFor.PulseIdle, []⟩
        [(Level.High, 700), (Level.Low, 900)] = [] :=
  noise_keeps_pulse_idle [(Level.High, 700), (Level.Low, 900)] [] (by decide)

/-- C9: invariant of the polling loop: whenever the state is `PulseIdle`
or `Preamble` the candidate payload is empty; it holds in the initial
state, is preserved by every transition, and therefore holds along every
trace from the initial state. -/
theorem idle_states_samples_empty :
    smInv ⟨WaitingFor.PulseIdle, []⟩ ∧
      (∀ st lvl count, smInv st → smInv (stepSM st lvl count).1) ∧
      (∀ events, smInv (runSM ⟨WaitingFor.PulseIdle, []⟩ events)) := by
  have hpres : ∀ st lvl count, smInv st → smInv (stepSM st lvl count).1 := by
    rintro ⟨ss, sam⟩ lvl count hinv
    cases ss with
    | PulseIdle =>
      have hsam : sam = [] := hinv (Or.inl rfl)
      subst hsam
      by_cases hl : lvl = Level.High
      · by_cases hr : in_range count PULSE_MIN PULSE_MAX = true <;>
          simp [stepSM, smInv, hl, hr]
      · simp [stepSM, smInv, hl]
    | Preamble =>
      have hsam : sam = [] := hinv (Or.inr rfl)
      subst hsam
      by_cases hr : in_range count PREAMBLE_MIN PREAMBLE_MAX = true <;>
        simp [stepSM, smInv, hr]
    | Pulse =>
      by_cases hr : in_range count PULSE_MIN PULSE_MAX = true <;>
        simp [stepSM, smInv, hr]
    | Data =>
      by_cases h1 : in_range count SIGNAL_END_MIN SIGNAL_END_MAX = true
      · by_cases h2 : sam = [] <;> simp [stepSM, smInv, h1, h2]
      · by_cases h2 : in_range count MIN_LOW MAX_HIGH = true <;>
          simp [stepSM, smInv, h1, h2]
  refine ⟨fun _ => rfl, hpres, ?_⟩
  intro events
  have key : ∀ st, smInv st → smInv (runSM st events) := by
    induction events with
    | nil => exact fun _ hst => hst
    | cons e rest ih =>
      intro st hst
      exact ih _ (hpres st e.1 e.2 hst)
  exact key _ (fun _ => rfl)

theorem idle_states_samples_empty_witness :
    smInv (stepSM ⟨WaitingFor.Pulse, [900]⟩ Level.High 700).1 :=
  idle_states_samples_empty.2.1 ⟨WaitingFor.Pulse, [900]⟩ Level.High 700
    (by simp [smInv])

/-- C10: for every payload of length exactly 36 all five slice accesses
performed by `decode` via `decode_range` (ranges `0..8`, `8..9`,
`10..12`, `12..24`, `28..36`) are in bounds (none returns the panic
value `none`), and `decode` itself is total. -/
theorem len36_slices_in_bounds (s : List ℕ) (ch : ℕ) (h : s.length = 36) :
    (decode_range s 0 8).isSome = true ∧
      (decode_range s 8 1).isSome = true ∧
      (decode_range s 10 2).isSome = true ∧
      (decode_range s 12 12).isSome = true ∧
      (decode_range s 28 8).isSome = true ∧
      (decode s ch).isSome = true := by
  have e12 : decode_range s 12 12 = some (decodeRangeGo (fieldSlice s 12 12) 0) := by
    rw [decode_range, if_pos (by omega)]
  have e28 : decode_range s 28 8 = some (decodeRangeGo (fieldSlice s 28 8) 0) := by
    rw [decode_range, if_pos (by omega)]
  have e8 : decode_range s 8 1 = some (decodeRangeGo (fieldSlice s 8 1) 0) := by
    rw [decode_range, if_pos (by omega)]
  have e10 : decode_range s 10 2 = some (decodeRangeGo (fieldSlice s 10 2) 0) := by
    rw [decode_range, if_pos (by omega)]
  have e0 : decode_range s 0 8 = some (decodeRangeGo (fieldSlice s 0 8) 0) := by
    rw [decode_range, if_pos (by omega)]
  refine ⟨by rw [e0]; rfl, by rw [e8]; rfl, by rw [e10]; rfl,
    by rw [e12]; rfl, by rw [e28]; rfl, ?_⟩
  rcases h12 : decodeRangeGo (fieldSlice s 12 12) 0 with e | tv
  · rw [decode_err_temp s ch h e (by rw [e12, h12])]
    rfl
  · rcases h28 : decodeRangeGo (fieldSlice s 28 8) 0 with e | hv2
    · rw [decode_err_hum s ch h tv e (by rw [e12, h12]) (by rw [e28, h28])]
      rfl
    · rcases h8 : decodeRangeGo (fieldSlice s 8 1) 0 with e | bv
      · rw [decode_err_bat s ch h tv hv2 e (by rw [e12, h12])
          (by rw [e28, h28]) (by rw [e8, h8])]
        rfl
      · rcases h10 : decodeRangeGo (fieldSlice s 10 2) 0 with e | cv
        · rw [decode_err_chan s ch h tv hv2 bv e (by rw [e12, h12])
            (by rw [e28, h28]) (by rw [e8, h8]) (by rw [e10, h10])]
          rfl
        · rcases h0 : decodeRangeGo (fieldSlice s 0 8) 0 with e | iv
          · rw [decode_err_id s ch h tv hv2 bv cv e (by rw [e12, h12])
              (by rw [e28, h28]) (by rw [e8, h8]) (by rw [e10, h10])
              (by rw [e0, h0])]
            rfl
          · rw [decode_eq_of_ranges s ch h tv hv2 bv cv iv (by rw [e12, h12])
              (by rw [e28, h28]) (by rw [e8, h8]) (by rw [e10, h10])
              (by rw [e0, h0])]
            split <;> rfl

theorem len36_slices_in_bounds_witness :
    (decode goodPayload 1).isSome = true :=
  (len36_slices_in_bounds goodPayload 1 (by decide)).2.2.2.2.2

/-- C4: for every 36-duration payload in which each duration lies in the
logical-1 window or the logical-0 window, decoding is total and yields
exactly one of a successful reading or the "wrong channel" error (it is
deterministic because `decode` is a function). -/
theorem valid_payload_decode_total (s : List ℕ) (ch : ℕ) (h : s.length = 36)
    (hv : ∀ x ∈ s, validSample x = true) :
    (∃ rd, decode s ch = some (Except.ok rd)) ∨
      (∃ c, decode s ch = some (Except.error (DecodeError.WrongChannel c))) := by
  have hvj : ∀ j, j < 36 → validSample (s.getD j 0) = true := by
    intro j hj
    have hjl : j < s.length := by omega
    rw [List.getD_eq_getElem _ 0 hjl]
    exact hv _ (List.getElem_mem hjl)
  obtain ⟨tv, ht⟩ := decode_range_ok s 12 12 (by omega)
    (fun j hj1 hj2 => hvj j (by omega))
  obtain ⟨hv2, hh⟩ := decode_range_ok s 28 8 (by omega)
    (fun j hj1 hj2 => hvj j (by omega))
  obtain ⟨bv, hb⟩ := decode_range_ok s 8 1 (by omega)
    (fun j hj1 hj2 => hvj j (by omega))
  obtain ⟨cv, hc⟩ := decode_range_ok s 10 2 (by omega)
    (fun j hj1 hj2 => hvj j (by omega))
  obtain ⟨iv, hi⟩ := decode_range_ok s 0 8 (by omega)
    (fun j hj1 hj2 => hvj j (by omega))
  rw [decode_eq_of_ranges s ch h tv hv2 bv cv iv ht hh hb hc hi]
  by_cases hch : as_u8 (cv + 1) ≠ ch
  · right
    exact ⟨as_u8 (cv + 1), by rw [if_pos hch]⟩
  · left
    exact ⟨_, by rw [if_neg hch]⟩

theorem valid_payload_decode_total_witness :
    (∃ rd, decode goodPayload 1 = some (Except.ok rd)) ∨
      (∃ c, decode goodPayload 1 =
        some (Except.error (DecodeError.WrongChannel c))) :=
  valid_payload_decode_total goodPayload 1 (by decide) (by decide)

/-- C6: the reported channel is the raw two-bit channel field plus one
(the raw field is below 4, so raw 0,1,2 report as 1,2,3 and the `u8`
cast is the identity), and on a fully valid 36-sample payload whose
reported channel differs from the configured one, `decode` fails with
the "wrong channel" error carrying the reported channel; when it
matches, `decode` succeeds with that channel in the reading. -/
theorem channel_mapping_and_filter (s : List ℕ) (ch : ℕ) (h : s.length = 36)
    (hv : ∀ x ∈ s, validSample x = true) :
    ∃ craw, decode_range s 10 2 = some (Except.ok craw) ∧ craw < 4 ∧
      as_u8 (craw + 1) = craw + 1 ∧
      (craw + 1 ≠ ch →
        decode s ch = some (Except.error (DecodeError.WrongChannel (craw + 1)))) ∧
      (craw + 1 = ch → ∃ rd, decode s ch = some (Except.ok rd) ∧
        rd.channel = craw + 1) := by
  have hvj : ∀ j, j < 36 → validSample (s.getD j 0) = true := by
    intro j hj
    have hjl : j < s.length := by omega
    rw [List.getD_eq_getElem _ 0 hjl]
    exact hv _ (List.getElem_mem hjl)
  obtain ⟨tv, ht⟩ := decode_range_ok s 12 12 (by omega)
    (fun j hj1 hj2 => hvj j (by omega))
  obtain ⟨hv2, hh⟩ := decode_range_ok s 28 8 (by omega)
    (fun j hj1 hj2 => hvj j (by omega))
  obtain ⟨bv, hb⟩ := decode_range_ok s 8 1 (by omega)
    (fun j hj1 hj2 => hvj j (by omega))
  obtain ⟨cv, hc⟩ := decode_range_ok s 10 2 (by omega)
    (fun j hj1 hj2 => hvj j (by omega))
  obtain ⟨iv, hi⟩ := decode_range_ok s 0 8 (by omega)
    (fun j hj1 hj2 => hvj j (by omega))
  have hgo : decodeRangeGo (fieldSlice s 10 2) 0 = Except.ok cv := by
    have h2 := hc
    rw [decode_range, if_pos (by omega)] at h2
    exact Option.some.inj h2
  have hlen2 : (fieldSlice s 10 2).length = 2 := fieldSlice_length s 10 2 (by omega)
  have hbound : cv < (0 + 1) * 2 ^ (fieldSlice s 10 2).length :=
    decodeRangeGo_bound _ 0 cv (by rw [hlen2]; norm_num) hgo
  rw [hlen2] at hbound
  have hcv : cv < 4 := by omega
  have h256 : (2 : ℕ) ^ 8 = 256 := by norm_num
  have hu8 : as_u8 (cv + 1) = cv + 1 := by
    unfold as_u8
    rw [h256]
    omega
  refine ⟨cv, hc, hcv, hu8, ?_, ?_⟩
  · intro hne
    rw [decode_eq_of_ranges s ch h tv hv2 bv cv iv ht hh hb hc hi,
      if_pos (by rw [hu8]; exact hne), hu8]
  · intro heq
    refine ⟨⟨as_u8 iv, as_u8 (cv + 1), as_u8 bv, (tempParts tv).1,
      (tempParts tv).2, humClamp hv2⟩, ?_, hu8⟩
    rw [decode_eq_of_ranges s ch h tv hv2 bv cv iv ht hh hb hc hi,
      if_neg (by rw [hu8]; exact not_not_intro heq)]

theorem channel_mapping_and_filter_witness :
    ∃ craw, decode_range goodPayload 10 2 = some (Except.ok craw) ∧
      craw < 4 ∧ as_u8 (craw + 1) = craw + 1 ∧
      (craw + 1 ≠ 2 → decode goodPayload 2 =
        some (Except.error (DecodeError.WrongChannel (craw + 1)))) ∧
      (craw + 1 = 2 → ∃ rd, decode goodPayload 2 = some (Except.ok rd) ∧
        rd.channel = craw + 1) :=
  channel_mapping_and_filter goodPayload 2 (by decide) (by decide)

/-- C1 is refuted as stated: `badPayload` is a 36-sample payload whose
position 9 holds the duration 5000, which lies outside both the
logical-1 window `[1650,2150]` and the logical-0 window `[800,1100]`,
yet `decode` does not return the "sample out of range" error for it (it
decodes successfully), because position 9 is never read by any of the
five field extractions. -/
theorem sample_out_of_range_any_position_cex :
    badPayload.length = 36 ∧ badPayload.getD 9 0 = 5000 ∧
      in_range 5000 MIN_HIGH MAX_HIGH = false ∧
      in_range 5000 MIN_LOW MAX_LOW = false ∧
      decode badPayload 1 = some (Except.ok ⟨0, 1, 0, 0, 0, 0⟩) ∧
      decode badPayload 1 ≠
        some (Except.error (DecodeError.SampleOutOfRange 5000)) := by
  refine ⟨by decide, by decide, by decide, by decide, by decide, by decide⟩

/-- C1 amended: for every 36-sample payload whose only duration lying
outside both bit windows sits at a position that `decode` actually reads
(positions 0-8, 10-23 or 28-35; positions 9 and 24-27 are never read),
the result is the "sample out of range" error carrying that exact
duration value, regardless of which read position it occupies. -/
theorem sample_out_of_range_read_positions (s : List ℕ) (ch i : ℕ)
    (h : s.length = 36) (hi : i < 36) (hread : readPosition i)
    (hbad : validSample (s.getD i 0) = false)
    (hrest : ∀ j, j < 36 → j ≠ i → validSample (s.getD j 0) = true) :
    decode s ch =
      some (Except.error (DecodeError.SampleOutOfRange (s.getD i 0))) := by
  rcases hread with hA | hB | hC
  · by_cases h8 : i < 8
    · obtain ⟨tv, ht⟩ := decode_range_ok s 12 12 (by omega)
        (fun j hj1 hj2 => hrest j (by omega) (by omega))
      obtain ⟨hv2, hh⟩ := decode_range_ok s 28 8 (by omega)
        (fun j hj1 hj2 => hrest j (by omega) (by omega))
      obtain ⟨bv, hb⟩ := decode_range_ok s 8 1 (by omega)
        (fun j hj1 hj2 => hrest j (by omega) (by omega))
      obtain ⟨cv, hc⟩ := decode_range_ok s 10 2 (by omega)
        (fun j hj1 hj2 => hrest j (by omega) (by omega))
      have hi2 := decode_range_err s 0 8 i (by omega) (by omega) (by omega)
        hbad (fun j hj1 hj2 => hrest j (by omega) (by omega))
      exact decode_err_id s ch h tv hv2 bv cv _ ht hh hb hc hi2
    · obtain ⟨tv, ht⟩ := decode_range_ok s 12 12 (by omega)
        (fun j hj1 hj2 => hrest j (by omega) (by omega))
      obtain ⟨hv2, hh⟩ := decode_range_ok s 28 8 (by omega)
        (fun j hj1 hj2 => hrest j (by omega) (by omega))
      have hb2 := decode_range_err s 8 1 i (by omega) (by omega) (by omega)
        hbad (fun j hj1 hj2 => hrest j (by omega) (by omega))
      exact decode_err_bat s ch h tv hv2 _ ht hh hb2
  · by_cases h12 : i < 12
    · obtain ⟨tv, ht⟩ := decode_range_ok s 12 12 (by omega)
        (fun j hj1 hj2 => hrest j (by omega) (by omega))
      obtain ⟨hv2, hh⟩ := decode_range_ok s 28 8 (by omega)
        (fun j hj1 hj2 => hrest j (by omega) (by omega))
      obtain ⟨bv, hb⟩ := decode_range_ok s 8 1 (by omega)
        (fun j hj1 hj2 => hrest j (by omega) (by omega))
      have hc2 := decode_range_err s 10 2 i (by omega) (by omega) (by omega)
        hbad (fun j hj1 hj2 => hrest j (by omega) (by omega))
      exact decode_err_chan s ch h tv hv2 bv _ ht hh hb hc2
    · have ht2 := decode_range_err s 12 12 i (by omega) (by omega) (by omega)
        hbad (fun j hj1 hj2 => hrest j (by omega) (by omega))
      exact decode_err_temp s ch h _ ht2
  · obtain ⟨tv, ht⟩ := decode_range_ok s 12 12 (by omega)
      (fun j hj1 hj2 => hrest j (by omega) (by omega))
    have hh2 := decode_range_err s 28 8 i (by omega) (by omega) (by omega)
      hbad (fun j hj1 hj2 => hrest j (by omega) (by omega))
    exact decode_err_hum s ch h tv _ ht hh2

theorem sample_out_of_range_read_positions_witness :
    decode cexPayload 1 =
      some (Except.error (DecodeError.SampleOutOfRange (cexPayload.getD 12 0))) :=
  sample_out_of_range_read_positions cexPayload 1 12 (by decide) (by decide)
    (by unfold readPosition; omega) (by decide) (by decide)

end EspRfOok
